import Mathlib

/-!
Shallow embedding of `smart_importer/machinelearning_helpers.py` and
verification of its specification.

The embedding keeps the Python names where Lean allows it.  Python values
are modelled as follows: optional values become `Option`, Python truthiness
of strings/lists/options is made explicit via `*Truthy` helpers, fallible
code returns `Option` (`next` on an exhausted iterator) or `Except` (a
projection that can raise `IndexError`), and the one place
where the code mutates a shared dict through an alias
(`_add_suggestions_to_transaction`) returns, alongside the new transaction,
the contents that the *caller's* transaction `meta` dict holds after the
call, so that the aliasing effect is observable in the model.
-/

namespace SmartImporter

/-- Calendar date, modelling `datetime.date` (only the fields the module
reads). -/
structure Date where
  year : Nat
  month : Nat
  day : Nat
deriving DecidableEq, Repr

/-- Beancount `Amount` (number, currency); the module never inspects it, it
only stores `None` in posting fields, so a simple carrier suffices. -/
structure Amount where
  number : Int
  currency : String
deriving DecidableEq, Repr

/-- Beancount `Cost`; like `Amount`, an opaque carrier for this module. -/
structure Cost where
  number : Int
  currency : String
  date : Option Date
  label : Option String
deriving DecidableEq, Repr

/-- A value stored in a transaction's `meta` dict.  The module only ever
stores JSON strings (`json.dumps` output); pre-existing metadata can also
hold other scalars, abstracted here as strings or integers. -/
inductive MetaVal where
  | str (s : String)
  | int (n : Int)
deriving DecidableEq, Repr

/-- A transaction's `meta` mapping: an insertion-ordered dict, modelled as
an association list (Python dicts preserve insertion order). -/
def Meta : Type := List (String × MetaVal)

instance : DecidableEq Meta := inferInstanceAs (DecidableEq (List (String × MetaVal)))
instance : Repr Meta := inferInstanceAs (Repr (List (String × MetaVal)))

/-- `meta[key] = v`: update the value in place if the key is present
(keeping its position, as a Python dict does), else append the new pair. -/
def Meta.set : Meta → String → MetaVal → Meta
  | [], k, v => [(k, v)]
  | (k', v') :: rest, k, v =>
    if k' = k then (k, v) :: rest else (k', v') :: Meta.set rest k v

/-- `meta.get(key)`: first value bound to the key, if any. -/
def Meta.get? : Meta → String → Option MetaVal
  | [], _ => none
  | (k', v') :: rest, k => if k' = k then some v' else Meta.get? rest k

/-- Beancount `Posting`.  The module constructs postings as
`Posting(account, None, None, None, None, None)`. -/
structure Posting where
  account : String
  units : Option Amount
  cost : Option Cost
  price : Option Amount
  flag : Option String
  meta : Option Meta
deriving DecidableEq, Repr

/-- Beancount `Transaction` named tuple (the fields this module touches,
plus the remaining record fields so that `_replace` frame conditions are
expressible). -/
structure Transaction where
  meta : Meta
  date : Date
  flag : String
  payee : Option String
  narration : String
  tags : List String
  links : List String
  postings : List Posting
deriving DecidableEq, Repr

/-- A non-`Transaction` beancount directive (`Open`, `Close`, `Note`, ...).
The module never inspects these: it only passes them through unchanged, so
the kind tag and an opaque payload suffice. -/
structure OtherDirective where
  kind : String
  payload : String
deriving DecidableEq, Repr

/-- One entry of a beancount ledger: either a `Transaction` or some other
directive.  `isinstance(entry, Transaction)` becomes a match on this sum. -/
inductive Entry where
  | txn (t : Transaction)
  | other (o : OtherDirective)
deriving DecidableEq, Repr

/-- `TxnPostingAccount = NamedTuple(..., [('txn', Transaction),
('posting', Posting), ('account', str)])`. -/
structure TxnPostingAccount where
  txn : Transaction
  posting : Posting
  account : String
deriving DecidableEq, Repr

/-- Python truthiness of an optional string: `None` and `''` are falsy. -/
def pyStrTruthy : Option String → Bool
  | none => false
  | some s => s ≠ ""

/-- Python `x or dflt` for an optional string `x`: the string itself when
truthy, otherwise the default. -/
def pyOr (x : Option String) (dflt : String) : String :=
  match x with
  | none => dflt
  | some s => if s = "" then dflt else s

/-- Python truthiness of an optional list argument: absent (`None`) and the
empty list are falsy. -/
def pyListTruthy : Option (List Entry) → Bool
  | none => false
  | some l => !l.isEmpty

/-- The `training_data` argument of `load_training_data`:
`Union[List[Transaction], str]` — either an in-memory list of entries or a
beancount file name. -/
inductive TrainingSource where
  | entries (l : List Entry)
  | path (p : String)

/-- Python truthiness of the `training_data` argument: the empty list and
the empty string are falsy. -/
def trainingFalsy : TrainingSource → Bool
  | .entries l => l.isEmpty
  | .path p => p = ""

/-- `beancount.core.data.filter_txns`: keep only the `Transaction` entries,
in order. -/
def filter_txns (l : List Entry) : List Transaction :=
  l.filterMap fun e =>
    match e with
    | .txn t => some t
    | .other _ => none

/-- Account predicate used by `load_training_data`:
`any([pos.account == known_account for pos in txn.postings])`.
Python evaluates this after `filter_txns`, so every element reaching it is
a `Transaction`; on any other entry Python would raise `AttributeError`
(unreachable), modelled as `false`. -/
def entryHasAccount (e : Entry) (acct : String) : Bool :=
  match e with
  | .txn t => t.postings.any fun pos => pos.account == acct
  | .other _ => false

/-- `load_training_data(training_data, known_account, existing_entries)`.
`loadFile` stands for the external `beancount.loader.load_file` (external
library, passed as a parameter); logging calls are no-ops and omitted. -/
def load_training_data (loadFile : String → List Entry)
    (training_data : TrainingSource) (known_account : Option String := none)
    (existing_entries : Option (List Entry) := none) : List Entry :=
  let td1 : List Entry :=
    if trainingFalsy training_data && pyListTruthy existing_entries then
      existing_entries.getD []
    else
      match training_data with
      | .path p => loadFile p
      | .entries l => l
  let td2 : List Entry :=
    if td1.isEmpty then td1 else (filter_txns td1).map Entry.txn
  if pyStrTruthy known_account then
    td2.filter fun e => entryHasAccount e (known_account.getD "")
  else
    td2

/-- `add_posting_to_transaction(transaction, account)`: appends an empty
posting with the given account when the transaction has exactly one
posting, else returns the transaction unchanged. -/
def add_posting_to_transaction (transaction : Transaction) (account : String) :
    Transaction :=
  if transaction.postings.length ≠ 1 then transaction
  else
    let additional_posting : Posting :=
      { account := account, units := none, cost := none, price := none,
        flag := none, meta := none }
    { transaction with postings := transaction.postings ++ [additional_posting] }

/-- `add_payee_to_transaction(transaction, payee, overwrite=False)`:
sets the payee when the current payee is falsy (`None` or `''`) or when
`overwrite` is requested. -/
def add_payee_to_transaction (transaction : Transaction) (payee : String)
    (overwrite : Bool := false) : Transaction :=
  if !pyStrTruthy transaction.payee || overwrite then
    { transaction with payee := some payee }
  else
    transaction

def METADATA_KEY_SUGGESTED_ACCOUNTS : String := "__suggested_accounts__"
def METADATA_KEY_SUGGESTED_PAYEES : String := "__suggested_payees__"

/-! ### JSON serialization

Modelled from the spec: the module serializes a list of suggestion strings
with the Python standard library's `json.dumps` and the spec states the
result parses back with `json.loads`.  `json` is an external library, so
its behaviour on lists of strings is embedded here: `dumps` is the default
encoder (`ensure_ascii=True`, separator `", "`), `loads` is the JSON
reader restricted to arrays of strings. -/

/-- Lower-case hexadecimal digit, as produced by Python's `"%04x"`. -/
def toHexDigit (d : Nat) : Char :=
  if d < 10 then Char.ofNat (48 + d) else Char.ofNat (87 + d)

/-- Four-digit lower-case hex rendering of `n % 0x10000` (`"\\u%04x"`). -/
def toHex4 (n : Nat) : List Char :=
  [toHexDigit (n / 4096 % 16), toHexDigit (n / 256 % 16),
   toHexDigit (n / 16 % 16), toHexDigit (n % 16)]

/-- Python `json.dumps` escape of one character (`py_encode_basestring_ascii`):
`"` and `\` are escaped; control characters get their short escapes or
`\uXXXX`; printable ASCII is literal; everything else becomes `\uXXXX`,
with a surrogate pair for code points beyond the BMP (`>> 10` and
`& 0x3FF` written as `/ 1024` and `% 1024`). -/
def encodeChar (c : Char) : List Char :=
  if c = '\"' then ['\\', '\"']
  else if c = '\\' then ['\\', '\\']
  else if c.toNat < 0x20 then
    if c.toNat = 8 then ['\\', 'b']
    else if c.toNat = 9 then ['\\', 't']
    else if c.toNat = 10 then ['\\', 'n']
    else if c.toNat = 12 then ['\\', 'f']
    else if c.toNat = 13 then ['\\', 'r']
    else '\\' :: 'u' :: toHex4 c.toNat
  else if c.toNat < 0x7f then [c]
  else if c.toNat < 0x10000 then '\\' :: 'u' :: toHex4 c.toNat
  else
    ('\\' :: 'u' :: toHex4 (0xD800 + (c.toNat - 0x10000) / 1024)) ++
    ('\\' :: 'u' :: toHex4 (0xDC00 + (c.toNat - 0x10000) % 1024))

/-- A JSON string literal: the escaped characters between double quotes. -/
def encodeString (s : String) : List Char :=
  '\"' :: (s.data.flatMap encodeChar ++ ['\"'])

/-- The separated tail of a JSON array: `", " ++ element` for each string. -/
def sepElems (xs : List String) : List Char :=
  xs.flatMap fun s => ',' :: ' ' :: encodeString s

/-- `json.dumps` on a list of strings: `[]`, or the elements joined by
`", "` between square brackets. -/
def dumps (l : List String) : String :=
  match l with
  | [] => "[]"
  | x :: xs => String.mk ('[' :: (encodeString x ++ sepElems xs ++ [']']))

/-- Value of one hexadecimal digit, upper or lower case. -/
def parseHexDigit (c : Char) : Option Nat :=
  if 48 ≤ c.toNat ∧ c.toNat ≤ 57 then some (c.toNat - 48)
  else if 97 ≤ c.toNat ∧ c.toNat ≤ 102 then some (c.toNat - 87)
  else if 65 ≤ c.toNat ∧ c.toNat ≤ 70 then some (c.toNat - 55)
  else none

/-- Value of a four-digit hexadecimal escape body. -/
def hex4 (a b c d : Char) : Option Nat := do
  let x ← parseHexDigit a
  let y ← parseHexDigit b
  let z ← parseHexDigit c
  let w ← parseHexDigit d
  pure (x * 4096 + y * 256 + z * 16 + w)

/-- The JSON single-character escapes (Python `json.decoder.BACKSLASH`
table). -/
def escChar (e : Char) : Option Char :=
  if e = '\"' then some '\"'
  else if e = '\\' then some '\\'
  else if e = '/' then some '/'
  else if e = 'b' then some (Char.ofNat 8)
  else if e = 'f' then some (Char.ofNat 12)
  else if e = 'n' then some (Char.ofNat 10)
  else if e = 'r' then some (Char.ofNat 13)
  else if e = 't' then some (Char.ofNat 9)
  else none

/-- A `\uXXXX` escape body (the input starts after `\u`): four hex digits,
combined with a following `\uXXXX` low surrogate when they form a pair
(`0x10000 + ((hi - 0xD800) << 10) | (lo - 0xDC00)`).  A lone surrogate is
rejected (Python would build a non-scalar string, which a Lean `Char`
cannot carry; `dumps` output never contains one). -/
def parseUEscape : List Char → Option (Char × List Char)
  | h1 :: h2 :: h3 :: h4 :: r2 =>
    match hex4 h1 h2 h3 h4 with
    | none => none
    | some n =>
      if 0xD800 ≤ n ∧ n < 0xDC00 then
        match r2 with
        | b1 :: b2 :: g1 :: g2 :: g3 :: g4 :: r3 =>
          if b1 = '\\' ∧ b2 = 'u' then
            match hex4 g1 g2 g3 g4 with
            | none => none
            | some m =>
              if 0xDC00 ≤ m ∧ m < 0xE000 then
                some (Char.ofNat (0x10000 + (n - 0xD800) * 1024 + (m - 0xDC00)), r3)
              else none
          else none
        | _ => none
      else if 0xDC00 ≤ n ∧ n < 0xE000 then none
      else some (Char.ofNat n, r2)
  | _ => none

/-- A backslash escape (the input starts after the backslash): `\uXXXX`
or one of the single-character escapes. -/
def parseEscape : List Char → Option (Char × List Char)
  | [] => none
  | e :: r =>
    if e = 'u' then parseUEscape r
    else
      match escChar e with
      | none => none
      | some ch => some (ch, r)

/-- JSON string-body scanner (Python `json.decoder.py_scanstring`, strict
mode): consumes characters after the opening quote up to the closing
quote, decoding backslash escapes and rejecting raw control characters.
`fuel` bounds the recursion; each step consumes at least one input
character, so any fuel above the input length gives the scanner's
result. -/
def parseStringBody : Nat → List Char → Option (List Char × List Char)
  | 0, _ => none
  | _ + 1, [] => none
  | fuel + 1, c :: rest =>
    if c = '\"' then some ([], rest)
    else if c = '\\' then
      match parseEscape rest with
      | none => none
      | some (ch, r) => (parseStringBody fuel r).map fun p => (ch :: p.1, p.2)
    else if c.toNat < 0x20 then none
    else (parseStringBody fuel rest).map fun p => (c :: p.1, p.2)

/-- JSON whitespace. -/
def jsonWs (c : Char) : Bool :=
  c == ' ' || c == Char.ofNat 9 || c == Char.ofNat 10 || c == Char.ofNat 13

/-- Skip leading JSON whitespace. -/
def skipWs : List Char → List Char
  | [] => []
  | c :: rest => if jsonWs c then skipWs rest else c :: rest

/-- A complete JSON string literal: opening quote, then the string body
(with always-sufficient fuel). -/
def parseStringLit : List Char → Option (List Char × List Char)
  | [] => none
  | c :: rest => if c = '\"' then parseStringBody (rest.length + 1) rest else none

/-- After the first array element: either the closing bracket, or a comma
followed by another string element.  `fuel` bounds the recursion; any
fuel larger than the number of remaining elements gives the same result. -/
def parseMoreElems : Nat → List Char → Option (List (List Char) × List Char)
  | 0, _ => none
  | fuel + 1, l =>
    match skipWs l with
    | [] => none
    | c :: r =>
      if c = ']' then some ([], r)
      else if c = ',' then
        match parseStringLit (skipWs r) with
        | none => none
        | some (e, r2) =>
          match parseMoreElems fuel r2 with
          | none => none
          | some (es, r3) => some (e :: es, r3)
      else none

/-- `json.loads` restricted to arrays of strings: a bracketed,
comma-separated sequence of string literals with optional whitespace, and
nothing but whitespace after the closing bracket. -/
def loadsChars (l : List Char) : Option (List String) :=
  match skipWs l with
  | [] => none
  | c :: r =>
    if c = '[' then
      match skipWs r with
      | [] => none
      | c2 :: r2 =>
        if c2 = ']' then if (skipWs r2).isEmpty then some [] else none
        else
          match parseStringLit (c2 :: r2) with
          | none => none
          | some (e, r3) =>
            match parseMoreElems (l.length + 1) r3 with
            | none => none
            | some (es, r4) =>
              if (skipWs r4).isEmpty then some (String.mk e :: es.map String.mk)
              else none
    else none

/-- `json.loads` on a string (arrays of strings only). -/
def loads (s : String) : Option (List String) := loadsChars s.data

/-- `_add_suggestions_to_transaction(transaction, suggestions, key)`.

In Python, `meta = transaction.meta` aliases the transaction's dict and
`meta[key] = json.dumps(suggestions)` mutates that shared dict in place;
`transaction._replace(meta=meta)` then builds a new named tuple whose
`meta` field is the *same* dict object.  The model therefore returns the
new transaction together with the contents that the original (caller's)
transaction's `meta` dict holds after the call — the two components share
the same mutated mapping. -/
def _add_suggestions_to_transaction (transaction : Transaction)
    (suggestions : List String) (key : String := "__suggestions__") :
    Transaction × Meta :=
  let meta := transaction.meta.set key (MetaVal.str (dumps suggestions))
  ({ transaction with meta := meta }, meta)

/-- `add_suggested_accounts_to_transaction(transaction, suggestions)`:
second component as in `_add_suggestions_to_transaction`. -/
def add_suggested_accounts_to_transaction (transaction : Transaction)
    (suggestions : List String) : Transaction × Meta :=
  _add_suggestions_to_transaction transaction suggestions
    METADATA_KEY_SUGGESTED_ACCOUNTS

/-- `add_suggested_payees_to_transaction(transaction, suggestions)`:
second component as in `_add_suggestions_to_transaction`. -/
def add_suggested_payees_to_transaction (transaction : Transaction)
    (suggestions : List String) : Transaction × Meta :=
  _add_suggestions_to_transaction transaction suggestions
    METADATA_KEY_SUGGESTED_PAYEES

/-- `merge_non_transaction_entries(imported_entries, enhanced_transactions)`:
walk the imported entries, substituting each `Transaction` entry with the
next element of `enhanced_transactions` (an iterator in Python); `next` on
an exhausted iterator raises `StopIteration`, modelled as `none`. -/
def merge_non_transaction_entries :
    List Entry → List Transaction → Option (List Entry)
  | [], _ => some []
  | .txn _ :: es, ts =>
    match ts with
    | [] => none
    | t :: ts' =>
      (merge_non_transaction_entries es ts').map fun l => Entry.txn t :: l
  | .other o :: es, ts =>
    (merge_non_transaction_entries es ts).map fun l => Entry.other o :: l

/-- Number of `Transaction` entries in a list of ledger entries. -/
def txnCount : List Entry → Nat
  | [] => 0
  | .txn _ :: es => txnCount es + 1
  | .other _ :: es => txnCount es

/-- An element fed to the field-extraction adapters.  The Python methods
type-dispatch with `isinstance` on `Transaction` and `TxnPostingAccount`
and fall through (returning `None`) on anything else; `unsupported`
stands for an arbitrary element of any other type. -/
inductive Datum where
  | txn (t : Transaction)
  | tpa (x : TxnPostingAccount)
  | unsupported (o : Nat)
deriving Repr

namespace GetPayee

/-- `GetPayee._get_payee`: `d.payee or ''` for a transaction,
`d.txn.payee or ''` for a triple, `None` otherwise. -/
def _get_payee : Datum → Option String
  | .txn t => some (pyOr t.payee "")
  | .tpa x => some (pyOr x.txn.payee "")
  | .unsupported _ => none

/-- `GetPayee.transform`: element-wise `_get_payee`. -/
def transform (data : List Datum) : List (Option String) :=
  data.map _get_payee

end GetPayee

namespace GetNarration

/-- `GetNarration._get_narration`. -/
def _get_narration : Datum → Option String
  | .txn t => some t.narration
  | .tpa x => some x.txn.narration
  | .unsupported _ => none

/-- `GetNarration.transform`: element-wise `_get_narration`. -/
def transform (data : List Datum) : List (Option String) :=
  data.map _get_narration

end GetNarration

/-- A raised Python exception.  The only exception the adapters themselves
can raise is the `IndexError` from `d.postings[-1]` / `d.postings[0]` on a
transaction with an empty postings list. -/
inductive PyError where
  | indexError
deriving DecidableEq, Repr

/-- A Python list comprehension `[f(d) for d in data]` over a projection
that can raise: elements are evaluated left to right, and the first raised
exception propagates out of the comprehension (no list is produced). -/
def listComp (f : Datum → Except PyError (Option String)) :
    List Datum → Except PyError (List (Option String))
  | [] => .ok []
  | d :: rest =>
    match f d with
    | .error e => .error e
    | .ok v =>
      match listComp f rest with
      | .error e => .error e
      | .ok vs => .ok (v :: vs)

namespace GetPostingAccount

/-- `GetPostingAccount._get_posting_account`: for a transaction,
`d.postings[-1].account` — the last posting's account, raising
`IndexError` (modelled as `Except.error`) when the posting list is empty;
for a triple, its posting's account; `None` (returned, not raised) for
any other element type. -/
def _get_posting_account : Datum → Except PyError (Option String)
  | .txn t =>
    match t.postings.getLast? with
    | some p => .ok (some p.account)
    | none => .error .indexError
  | .tpa x => .ok (some x.posting.account)
  | .unsupported _ => .ok none

/-- `GetPostingAccount.transform`: the comprehension
`[self._get_posting_account(d) for d in data]`. -/
def transform (data : List Datum) : Except PyError (List (Option String)) :=
  listComp _get_posting_account data

end GetPostingAccount

namespace GetReferencePostingAccount

/-- `GetReferencePostingAccount._get_posting_account`: for a transaction,
`d.postings[0].account` — the first posting's account, raising
`IndexError` (modelled as `Except.error`) when the posting list is empty;
for a triple, its designated reference account; `None` (returned, not
raised) for any other element type. -/
def _get_posting_account : Datum → Except PyError (Option String)
  | .txn t =>
    match t.postings.head? with
    | some p => .ok (some p.account)
    | none => .error .indexError
  | .tpa x => .ok (some x.account)
  | .unsupported _ => .ok none

/-- `GetReferencePostingAccount.transform`: the comprehension
`[self._get_posting_account(d) for d in data]`. -/
def transform (data : List Datum) : Except PyError (List (Option String)) :=
  listComp _get_posting_account data

end GetReferencePostingAccount

namespace GetDayOfMonth

/-- `GetDayOfMonth._get_day_of_month`: `d.date.day` for a transaction,
`d.txn.date.day` for a triple, `None` otherwise. -/
def _get_day_of_month : Datum → Option Nat
  | .txn t => some t.date.day
  | .tpa x => some x.txn.date.day
  | .unsupported _ => none

/-- `GetDayOfMonth.transform`: element-wise `_get_day_of_month`. -/
def transform (data : List Datum) : List (Option Nat) :=
  data.map _get_day_of_month

end GetDayOfMonth

/-! ### Round-trip lemmas for the JSON model -/

/-- Every Lean `Char` is a Unicode scalar value: below the surrogate range
or strictly between it and `0x110000`. -/
theorem char_scalar (c : Char) :
    c.toNat < 0xD800 ∨ (0xDFFF < c.toNat ∧ c.toNat < 0x110000) := c.valid

theorem parseHexDigit_toHexDigit : ∀ d < 16, parseHexDigit (toHexDigit d) = some d := by
  decide

theorem hex4_toHex4 {n : Nat} (h : n < 65536) :
    hex4 (toHexDigit (n / 4096 % 16)) (toHexDigit (n / 256 % 16))
      (toHexDigit (n / 16 % 16)) (toHexDigit (n % 16)) = some n := by
  have h3 := parseHexDigit_toHexDigit (n / 4096 % 16) (Nat.mod_lt _ (by omega))
  have h2 := parseHexDigit_toHexDigit (n / 256 % 16) (Nat.mod_lt _ (by omega))
  have h1 := parseHexDigit_toHexDigit (n / 16 % 16) (Nat.mod_lt _ (by omega))
  have h0 := parseHexDigit_toHexDigit (n % 16) (Nat.mod_lt _ (by omega))
  simp only [hex4, h3, h2, h1, h0, Option.bind_eq_bind, Option.some_bind,
    Option.some.injEq, pure]
  omega

theorem parseEscape_escChar {e ch : Char} (h : escChar e = some ch) (r : List Char) :
    parseEscape (e :: r) = some (ch, r) := by
  have hu : e ≠ 'u' := by
    intro he
    subst he
    simp [escChar] at h
  simp [parseEscape, hu, h]

theorem parseUEscape_single {n : Nat} (hn : n < 65536)
    (hlo : ¬(0xD800 ≤ n ∧ n < 0xDC00)) (hhi : ¬(0xDC00 ≤ n ∧ n < 0xE000))
    (r : List Char) :
    parseUEscape (toHex4 n ++ r) = some (Char.ofNat n, r) := by
  have h4 := hex4_toHex4 hn
  simp [toHex4, parseUEscape, h4, hlo, hhi]

theorem parseUEscape_pair {m : Nat} (hm : m < 0x100000) (r : List Char) :
    parseUEscape (toHex4 (0xD800 + m / 1024) ++ '\\' :: 'u' ::
        (toHex4 (0xDC00 + m % 1024) ++ r)) =
      some (Char.ofNat (0x10000 + m), r) := by
  have hdiv : m / 1024 < 1024 := by omega
  have hmod : m % 1024 < 1024 := Nat.mod_lt _ (by omega)
  have hhi := hex4_toHex4 (n := 0xD800 + m / 1024) (by omega)
  have hlo := hex4_toHex4 (n := 0xDC00 + m % 1024) (by omega)
  have hsurr : 0xD800 ≤ 0xD800 + m / 1024 ∧ 0xD800 + m / 1024 < 0xDC00 := by omega
  have hsurr2 : 0xDC00 ≤ 0xDC00 + m % 1024 ∧ 0xDC00 + m % 1024 < 0xE000 := by omega
  have harith : 0x10000 + (0xD800 + m / 1024 - 0xD800) * 1024 +
      (0xDC00 + m % 1024 - 0xDC00) = 0x10000 + m := by omega
  simp only [toHex4, List.cons_append, List.nil_append, parseUEscape, hhi, hlo,
    if_pos hsurr, if_pos rfl, if_pos hsurr2, harith, and_self, if_true]

theorem psb_step_backslash (fuel : Nat) (rest : List Char) :
    parseStringBody (fuel + 1) ('\\' :: rest) =
      match parseEscape rest with
      | none => none
      | some (ch, r) => (parseStringBody fuel r).map fun p => (ch :: p.1, p.2) := by
  simp [parseStringBody]

theorem parseEscape_u (r : List Char) : parseEscape ('u' :: r) = parseUEscape r := by
  simp [parseEscape]

theorem psb_enc_esc {c e : Char} (henc : encodeChar c = ['\\', e])
    (hesc : escChar e = some c) (fuel : Nat) (rest : List Char) :
    parseStringBody (fuel + 1) (encodeChar c ++ rest) =
      (parseStringBody fuel rest).map fun p => (c :: p.1, p.2) := by
  rw [henc]
  have hpe := parseEscape_escChar hesc rest
  simp [parseStringBody, hpe]

theorem psb_enc_uescape {c : Char} (henc : encodeChar c = '\\' :: 'u' :: toHex4 c.toNat)
    (hbmp : c.toNat < 0x10000) (fuel : Nat) (rest : List Char) :
    parseStringBody (fuel + 1) (encodeChar c ++ rest) =
      (parseStringBody fuel rest).map fun p => (c :: p.1, p.2) := by
  have hofNat : Char.ofNat c.toNat = c := Char.ofNat_toNat c
  have hval := char_scalar c
  have hU := parseUEscape_single (n := c.toNat) (by omega) (by omega) (by omega) rest
  rw [henc]
  simp only [List.cons_append, List.append_assoc]
  simp [parseStringBody, parseEscape, hU, hofNat]

theorem psb_enc_lit {c : Char} (h1 : c ≠ '\"') (h2 : c ≠ '\\')
    (h3 : ¬c.toNat < 0x20) (henc : encodeChar c = [c]) (fuel : Nat) (rest : List Char) :
    parseStringBody (fuel + 1) (encodeChar c ++ rest) =
      (parseStringBody fuel rest).map fun p => (c :: p.1, p.2) := by
  rw [henc]
  simp [parseStringBody, h1, h2, h3]

theorem psb_enc_pair {c : Char} (hbmp : ¬c.toNat < 0x10000)
    (henc : encodeChar c =
      '\\' :: 'u' :: (toHex4 (0xD800 + (c.toNat - 0x10000) / 1024) ++
        ('\\' :: 'u' :: toHex4 (0xDC00 + (c.toNat - 0x10000) % 1024))))
    (fuel : Nat) (rest : List Char) :
    parseStringBody (fuel + 1) (encodeChar c ++ rest) =
      (parseStringBody fuel rest).map fun p => (c :: p.1, p.2) := by
  have hofNat : Char.ofNat c.toNat = c := Char.ofNat_toNat c
  have hval := char_scalar c
  have hm : c.toNat - 0x10000 < 0x100000 := by omega
  have hU := parseUEscape_pair hm rest
  have hcn : 0x10000 + (c.toNat - 0x10000) = c.toNat := by omega
  rw [henc]
  simp only [List.cons_append, List.append_assoc, List.nil_append]
  rw [psb_step_backslash, parseEscape_u, hU]
  rw [hcn, hofNat]

theorem parseStringBody_encodeChar (c : Char) (fuel : Nat) (rest : List Char) :
    parseStringBody (fuel + 1) (encodeChar c ++ rest) =
      (parseStringBody fuel rest).map fun p => (c :: p.1, p.2) := by
  have hofNat : Char.ofNat c.toNat = c := Char.ofNat_toNat c
  by_cases h1 : c = '\"'
  · subst h1
    exact @psb_enc_esc '\"' '\"' rfl rfl fuel rest
  by_cases h2 : c = '\\'
  · subst h2
    exact @psb_enc_esc '\\' '\\' rfl rfl fuel rest
  by_cases h3 : c.toNat < 0x20
  · by_cases h8 : c.toNat = 8
    · have hc : c = Char.ofNat 8 := by rw [← h8, hofNat]
      subst hc
      exact @psb_enc_esc (Char.ofNat 8) 'b' rfl rfl fuel rest
    by_cases h9 : c.toNat = 9
    · have hc : c = Char.ofNat 9 := by rw [← h9, hofNat]
      subst hc
      exact @psb_enc_esc (Char.ofNat 9) 't' rfl rfl fuel rest
    by_cases h10 : c.toNat = 10
    · have hc : c = Char.ofNat 10 := by rw [← h10, hofNat]
      subst hc
      exact @psb_enc_esc (Char.ofNat 10) 'n' rfl rfl fuel rest
    by_cases h12 : c.toNat = 12
    · have hc : c = Char.ofNat 12 := by rw [← h12, hofNat]
      subst hc
      exact @psb_enc_esc (Char.ofNat 12) 'f' rfl rfl fuel rest
    by_cases h13 : c.toNat = 13
    · have hc : c = Char.ofNat 13 := by rw [← h13, hofNat]
      subst hc
      exact @psb_enc_esc (Char.ofNat 13) 'r' rfl rfl fuel rest
    · have henc : encodeChar c = '\\' :: 'u' :: toHex4 c.toNat := by
        simp [encodeChar, h1, h2, h3, h8, h9, h10, h12, h13]
      exact psb_enc_uescape henc (by omega) fuel rest
  by_cases h7f : c.toNat < 0x7f
  · have henc : encodeChar c = [c] := by
      simp [encodeChar, h1, h2, h3, h7f]
    exact psb_enc_lit h1 h2 h3 henc fuel rest
  by_cases hbmp : c.toNat < 0x10000
  · have henc : encodeChar c = '\\' :: 'u' :: toHex4 c.toNat := by
      simp [encodeChar, h1, h2, h3, h7f, hbmp]
    exact psb_enc_uescape henc hbmp fuel rest
  · have henc : encodeChar c =
        '\\' :: 'u' :: (toHex4 (0xD800 + (c.toNat - 0x10000) / 1024) ++
          ('\\' :: 'u' :: toHex4 (0xDC00 + (c.toNat - 0x10000) % 1024))) := by
      simp [encodeChar, h1, h2, h3, h7f, hbmp]
    exact psb_enc_pair hbmp henc fuel rest

theorem psb_encode (l : List Char) : ∀ (fuel : Nat) (rest : List Char),
    l.length < fuel →
    parseStringBody fuel (l.flatMap encodeChar ++ '\"' :: rest) = some (l, rest) := by
  induction l with
  | nil =>
    intro fuel rest h
    match fuel, h with
    | fuel + 1, _ => simp [parseStringBody]
  | cons c l ih =>
    intro fuel rest h
    match fuel, h with
    | fuel + 1, h =>
      simp only [List.flatMap_cons, List.append_assoc]
      rw [parseStringBody_encodeChar]
      rw [ih fuel rest (by simp at h; omega)]
      rfl

theorem one_le_length_encodeChar (c : Char) : 1 ≤ (encodeChar c).length := by
  unfold encodeChar
  split_ifs <;> simp [toHex4]

theorem length_le_length_flatMap (l : List Char) :
    l.length ≤ (l.flatMap encodeChar).length := by
  induction l with
  | nil => simp
  | cons c l ih =>
    have := one_le_length_encodeChar c
    simp only [List.flatMap_cons, List.length_append, List.length_cons]
    omega

theorem parseStringLit_encodeString (s : String) (rest : List Char) :
    parseStringLit ('\"' :: (s.data.flatMap encodeChar ++ ('\"' :: rest))) =
      some (s.data, rest) := by
  have hb := length_le_length_flatMap s.data
  simp only [parseStringLit, if_pos rfl]
  apply psb_encode
  simp only [List.length_append, List.length_cons]
  omega

theorem skipWs_not_ws {c : Char} (h : jsonWs c = false) (r : List Char) :
    skipWs (c :: r) = c :: r := by
  simp [skipWs, h]

theorem skipWs_space (r : List Char) : skipWs (' ' :: r) = skipWs r := by
  simp [skipWs, jsonWs]

theorem length_le_length_sepElems (xs : List String) :
    xs.length ≤ (sepElems xs).length := by
  induction xs with
  | nil => simp [sepElems]
  | cons x xs ih =>
    simp only [sepElems, List.flatMap_cons, List.length_append,
      List.length_cons] at ih ⊢
    omega

theorem parseMoreElems_cons (fuel : Nat) (c : Char) (r : List Char)
    (hc : jsonWs c = false) :
    parseMoreElems (fuel + 1) (c :: r) =
      if c = ']' then some ([], r)
      else if c = ',' then
        match parseStringLit (skipWs r) with
        | none => none
        | some (e, r2) =>
          match parseMoreElems fuel r2 with
          | none => none
          | some (es, r3) => some (e :: es, r3)
      else none := by
  simp only [parseMoreElems]
  rw [skipWs_not_ws hc]

theorem parseMoreElems_sepElems (xs : List String) : ∀ (fuel : Nat) (rest : List Char),
    xs.length < fuel →
    parseMoreElems fuel (sepElems xs ++ ']' :: rest) =
      some (xs.map String.data, rest) := by
  induction xs with
  | nil =>
    intro fuel rest h
    match fuel, h with
    | fuel + 1, _ =>
      simp only [sepElems, List.flatMap_nil, List.nil_append]
      rw [parseMoreElems_cons fuel ']' rest (by decide)]
      simp
  | cons x xs ih =>
    intro fuel rest h
    match fuel, h with
    | fuel + 1, h =>
      have hih := ih fuel rest (by simp at h; omega)
      have hskip2 : skipWs (' ' :: (encodeString x ++ (sepElems xs ++ ']' :: rest))) =
          '\"' :: (x.data.flatMap encodeChar ++ ('\"' :: (sepElems xs ++ ']' :: rest))) := by
        rw [skipWs_space]
        simp only [encodeString, List.cons_append, List.append_assoc]
        exact skipWs_not_ws (by decide) _
      simp only [sepElems, List.flatMap_cons, List.cons_append, List.append_assoc]
      rw [parseMoreElems_cons fuel ',' _ (by decide)]
      rw [if_neg (by decide), if_pos rfl]
      have hsep : (xs.flatMap fun s => ',' :: ' ' :: encodeString s) = sepElems xs := rfl
      rw [hsep, hskip2, parseStringLit_encodeString]
      simp [hih]

theorem mk_data (s : String) : String.mk s.data = s := rfl

theorem map_mk_data (xs : List String) :
    List.map (String.mk ∘ String.data) xs = xs := by
  induction xs with
  | nil => rfl
  | cons x xs ih =>
    simp only [List.map_cons, Function.comp_apply, ih, mk_data]

theorem loadsChars_cons (l : List Char) (c : Char) (r : List Char)
    (h : skipWs l = c :: r) :
    loadsChars l =
      (if c = '[' then
        match skipWs r with
        | [] => none
        | c2 :: r2 =>
          if c2 = ']' then if (skipWs r2).isEmpty then some [] else none
          else
            match parseStringLit (c2 :: r2) with
            | none => none
            | some (e, r3) =>
              match parseMoreElems (l.length + 1) r3 with
              | none => none
              | some (es, r4) =>
                if (skipWs r4).isEmpty then some (String.mk e :: es.map String.mk)
                else none
      else none) := by
  simp only [loadsChars]
  rw [h]

theorem loads_dumps (l : List String) : loads (dumps l) = some l := by
  cases l with
  | nil => rfl
  | cons x xs =>
    have hL : loads (dumps (x :: xs)) =
        loadsChars ('[' :: (encodeString x ++ sepElems xs ++ [']'])) := rfl
    have hskipr : skipWs (encodeString x ++ sepElems xs ++ [']']) =
        '\"' :: (x.data.flatMap encodeChar ++ ('\"' :: (sepElems xs ++ [']']))) := by
      simp only [encodeString, List.cons_append, List.append_assoc]
      exact skipWs_not_ws (by decide) _
    have hmore := parseMoreElems_sepElems xs
      ((encodeString x).length + ((sepElems xs).length + 1) + 1 + 1) []
      (by have := length_le_length_sepElems xs; omega)
    have hmk : String.mk x.data = x := rfl
    rw [hL, loadsChars_cons _ '[' _ (skipWs_not_ws (by decide) _), if_pos rfl, hskipr]
    simp [parseStringLit_encodeString, hmore, hmk, skipWs, List.map_map,
      map_mk_data]

/-! ### Sample values used by witnesses and counterexamples -/

def sampleDate : Date := { year := 2024, month := 3, day := 15 }

def postingCash : Posting :=
  { account := "Assets:Cash", units := none, cost := none, price := none,
    flag := none, meta := none }

def postingFood : Posting :=
  { account := "Expenses:Food", units := none, cost := none, price := none,
    flag := none, meta := none }

def sampleTxn : Transaction :=
  { meta := [], date := sampleDate, flag := "*", payee := none,
    narration := "coffee", tags := [], links := [], postings := [postingCash] }

def sampleTxnTwo : Transaction :=
  { meta := [], date := sampleDate, flag := "*", payee := some ("Acme"),
    narration := "groceries", tags := [], links := [],
    postings := [postingCash, postingFood] }

def sampleNote : OtherDirective := { kind := "Note", payload := "a note" }

def sampleOpen : OtherDirective := { kind := "Open", payload := "Assets:Cash" }

/-! ### Helper lemmas about the embedded operations -/

theorem Meta.get?_set (m : Meta) (k : String) (v : MetaVal) :
    Meta.get? (Meta.set m k v) k = some v := by
  induction m with
  | nil => simp [Meta.set, Meta.get?]
  | cons kv rest ih =>
    by_cases h : kv.1 = k
    · simp [Meta.set, Meta.get?, h]
    · simp [Meta.set, Meta.get?, h, ih]

theorem merge_none_iff (imported : List Entry) :
    ∀ enhanced : List Transaction,
      merge_non_transaction_entries imported enhanced = none ↔
        enhanced.length < txnCount imported := by
  induction imported with
  | nil =>
    intro enhanced
    simp [merge_non_transaction_entries, txnCount]
  | cons e es ih =>
    intro enhanced
    cases e with
    | txn t0 =>
      cases enhanced with
      | nil => simp [merge_non_transaction_entries, txnCount]
      | cons t ts =>
        simp only [merge_non_transaction_entries, Option.map_eq_none', ih,
          txnCount, List.length_cons]
        omega
    | other o =>
      simp only [merge_non_transaction_entries, Option.map_eq_none', ih,
        txnCount, List.length_cons]

theorem merge_shape (imported : List Entry) :
    ∀ enhanced : List Transaction, txnCount imported ≤ enhanced.length →
      ∃ out, merge_non_transaction_entries imported enhanced = some out ∧
        out.length = imported.length ∧
        ∀ i : Nat, i < imported.length →
          (∀ o, imported[i]? = some (Entry.other o) → out[i]? = some (Entry.other o)) ∧
          (∀ t, imported[i]? = some (Entry.txn t) →
            out[i]? = (enhanced[txnCount (imported.take i)]?).map Entry.txn) := by
  induction imported with
  | nil =>
    intro enhanced _
    exact ⟨[], rfl, rfl, fun i hi => absurd hi (by simp)⟩
  | cons e es ih =>
    intro enhanced h
    cases e with
    | other o =>
      have h' : txnCount es ≤ enhanced.length := by
        simpa [txnCount] using h
      obtain ⟨out, hout, hlen, hidx⟩ := ih enhanced h'
      refine ⟨Entry.other o :: out, ?_, ?_, ?_⟩
      · simp [merge_non_transaction_entries, hout]
      · simp [hlen]
      · intro i hi
        cases i with
        | zero => simp [txnCount]
        | succ i =>
          have hi' : i < es.length := by simpa using hi
          obtain ⟨h1, h2⟩ := hidx i hi'
          refine ⟨?_, ?_⟩
          · intro o' ho'
            simp only [List.getElem?_cons_succ] at ho' ⊢
            exact h1 o' ho'
          · intro t' ht'
            simp only [List.getElem?_cons_succ] at ht' ⊢
            have := h2 t' ht'
            simpa [List.take_succ_cons, txnCount] using this
    | txn t0 =>
      cases enhanced with
      | nil => simp [txnCount] at h
      | cons t ts =>
        have h' : txnCount es ≤ ts.length := by
          simp [txnCount] at h
          omega
        obtain ⟨out, hout, hlen, hidx⟩ := ih ts h'
        refine ⟨Entry.txn t :: out, ?_, ?_, ?_⟩
        · simp [merge_non_transaction_entries, hout]
        · simp [hlen]
        · intro i hi
          cases i with
          | zero => simp [txnCount]
          | succ i =>
            have hi' : i < es.length := by simpa using hi
            obtain ⟨h1, h2⟩ := hidx i hi'
            refine ⟨?_, ?_⟩
            · intro o' ho'
              simp only [List.getElem?_cons_succ] at ho' ⊢
              exact h1 o' ho'
            · intro t' ht'
              simp only [List.getElem?_cons_succ] at ht' ⊢
              have := h2 t' ht'
              simpa [List.take_succ_cons, txnCount] using this

theorem filter_map_txn (ts : List Transaction) (a : String) :
    (ts.map Entry.txn).filter (fun e => entryHasAccount e a) =
      (ts.filter fun t => t.postings.any fun pos => pos.account == a).map
        Entry.txn := by
  induction ts with
  | nil => rfl
  | cons t ts ih =>
    simp only [entryHasAccount] at ih
    simp only [List.map_cons, List.filter_cons, entryHasAccount]
    rcases Bool.eq_false_or_eq_true (t.postings.any fun pos => pos.account == a)
      with h | h <;> simp [h, ih]

theorem load_entries_nonempty (loadFile : String → List Entry) {l : List Entry}
    (hl : l ≠ []) (ka : Option String) (existing : Option (List Entry)) :
    load_training_data loadFile (.entries l) ka existing =
      if pyStrTruthy ka then
        ((filter_txns l).map Entry.txn).filter fun e =>
          entryHasAccount e (ka.getD "")
      else (filter_txns l).map Entry.txn := by
  have hle : l.isEmpty = false := by
    cases l with
    | nil => exact absurd rfl hl
    | cons x xs => rfl
  simp [load_training_data, trainingFalsy, hle]

theorem load_fallback (loadFile : String → List Entry) {ex : List Entry}
    (hex : ex ≠ []) (ka : Option String) :
    load_training_data loadFile (.entries []) ka (some ex) =
      if pyStrTruthy ka then
        ((filter_txns ex).map Entry.txn).filter fun e =>
          entryHasAccount e (ka.getD "")
      else (filter_txns ex).map Entry.txn := by
  have hexe : ex.isEmpty = false := by
    cases ex with
    | nil => exact absurd rfl hex
    | cons x xs => rfl
  simp [load_training_data, trainingFalsy, pyListTruthy, hexe]

theorem load_mem_account {loadFile : String → List Entry} {td : TrainingSource}
    {existing : Option (List Entry)} {a : String} {t : Transaction}
    (ha : a ≠ "")
    (ht : Entry.txn t ∈ load_training_data loadFile td (some a) existing) :
    ∃ pos ∈ t.postings, pos.account = a := by
  have hka : pyStrTruthy (some a) = true := by simp [pyStrTruthy, ha]
  simp only [load_training_data, hka, if_true] at ht
  have hpred := (List.mem_filter.mp ht).2
  simp only [Option.getD, entryHasAccount] at hpred
  obtain ⟨pos, hmem, hacc⟩ := List.any_eq_true.mp hpred
  exact ⟨pos, hmem, by simpa using hacc⟩

theorem listComp_ok (f : Datum → Except PyError (Option String)) :
    ∀ data : List Datum, (∀ d ∈ data, ∃ v, f d = .ok v) →
      ∃ out, listComp f data = .ok out ∧ out.length = data.length ∧
        ∀ i : Nat, (out[i]?).map Except.ok = (data[i]?).map f := by
  intro data
  induction data with
  | nil =>
    intro _
    exact ⟨[], rfl, rfl, by simp⟩
  | cons d rest ih =>
    intro h
    obtain ⟨v, hv⟩ := h d (by simp)
    obtain ⟨out, hout, hlen, hidx⟩ := ih fun d' hd' => h d' (by simp [hd'])
    refine ⟨v :: out, ?_, by simp [hlen], ?_⟩
    · simp [listComp, hv, hout]
    · intro i
      cases i with
      | zero => simp [hv]
      | succ i => simpa using hidx i

theorem getPostingAccount_ok {data : List Datum}
    (h : ∀ t, Datum.txn t ∈ data → t.postings ≠ []) :
    ∀ d ∈ data, ∃ v, GetPostingAccount._get_posting_account d = .ok v := by
  intro d hd
  cases d with
  | txn t =>
    have hne := h t hd
    obtain ⟨p, hp⟩ := Option.isSome_iff_exists.mp (List.getLast?_isSome.mpr hne)
    exact ⟨some p.account, by simp [GetPostingAccount._get_posting_account, hp]⟩
  | tpa x => exact ⟨some x.posting.account, rfl⟩
  | unsupported o => exact ⟨none, rfl⟩

theorem getRefPostingAccount_ok {data : List Datum}
    (h : ∀ t, Datum.txn t ∈ data → t.postings ≠ []) :
    ∀ d ∈ data, ∃ v, GetReferencePostingAccount._get_posting_account d = .ok v := by
  intro d hd
  cases d with
  | txn t =>
    have hne := h t hd
    match hp : t.postings, hne with
    | p :: ps, _ =>
      exact ⟨some p.account,
        by simp [GetReferencePostingAccount._get_posting_account, hp]⟩
  | tpa x => exact ⟨some x.account, rfl⟩
  | unsupported o => exact ⟨none, rfl⟩

/-! ### Witness inputs -/

def extraAccount : String := "Expenses:Misc"

/-- `Posting(account, None, None, None, None, None)` as a function of the
account, for stating C3. -/
def emptyPosting (a : String) : Posting :=
  { account := a, units := none, cost := none, price := none,
    flag := none, meta := none }

def foodAccount : String := "Expenses:Food"

def wPayee : String := "Bob"

def sampleTxnEmptyPayee : Transaction :=
  { meta := [], date := sampleDate, flag := "*", payee := some (""),
    narration := "atm", tags := [], links := [], postings := [postingCash] }

def wTxnOneE : Transaction :=
  { meta := [], date := sampleDate, flag := "*", payee := some ("Starbucks"),
    narration := "coffee", tags := [], links := [], postings := [postingCash] }

def wTxnTwoE : Transaction :=
  { meta := [], date := sampleDate, flag := "*", payee := some ("Market"),
    narration := "groceries", tags := [], links := [],
    postings := [postingFood] }

def wEntries : List Entry :=
  [Entry.other sampleOpen, Entry.txn sampleTxn, Entry.other sampleNote,
   Entry.txn sampleTxnTwo]

def wEnhanced : List Transaction := [wTxnOneE, wTxnTwoE]

def wLedger : List Entry :=
  [Entry.txn sampleTxn, Entry.other sampleNote, Entry.txn sampleTxnTwo]

def txnNoPostings : Transaction :=
  { meta := [], date := sampleDate, flag := "*", payee := none,
    narration := "empty", tags := [], links := [], postings := [] }

/-! ### The claims -/

/-- Claim C1: whenever the enhanced sequence is long enough (the
precondition the spec states for the merger), `merge_non_transaction_entries`
succeeds and returns a sequence of the same length as the original in which
every non-transaction entry appears unchanged at its original position and
the i-th transaction-kind entry is replaced by the next enhanced transaction,
consumed in order (the entry at position `i` receives enhanced element number
`txnCount (imported.take i)`). -/
theorem C1_merge_interleaves (imported : List Entry) (enhanced : List Transaction)
    (h : txnCount imported ≤ enhanced.length) :
    ∃ out, merge_non_transaction_entries imported enhanced = some out ∧
      out.length = imported.length ∧
      ∀ i : Nat, i < imported.length →
        (∀ o, imported[i]? = some (Entry.other o) → out[i]? = some (Entry.other o)) ∧
        (∀ t, imported[i]? = some (Entry.txn t) →
          out[i]? = (enhanced[txnCount (imported.take i)]?).map Entry.txn) :=
  merge_shape imported enhanced h

/-- Witness for C1 at the spec's example shape
`[Open, Txn1, Note, Txn2]` with two enhanced transactions. -/
theorem C1_witness :
    txnCount wEntries ≤ wEnhanced.length ∧
    ∃ out, merge_non_transaction_entries wEntries wEnhanced = some out ∧
      out.length = wEntries.length ∧
      ∀ i : Nat, i < wEntries.length →
        (∀ o, wEntries[i]? = some (Entry.other o) → out[i]? = some (Entry.other o)) ∧
        (∀ t, wEntries[i]? = some (Entry.txn t) →
          out[i]? = (wEnhanced[txnCount (wEntries.take i)]?).map Entry.txn) :=
  ⟨by decide, C1_merge_interleaves wEntries wEnhanced (by decide)⟩

/-- Claim C2 as stated is false: with no `__suggested_accounts__` key in
the metadata, the caller's transaction `meta` mapping after the call (the
second component of the model, reflecting the dict aliased and mutated by
`meta[key] = json.dumps(...)`) differs from the transaction's meta before
the call. -/
theorem C2_counterexample :
    (add_suggested_accounts_to_transaction sampleTxn ["Food"]).2 ≠
      sampleTxn.meta := by
  decide

/-- Claim C2, amended: the annotators return a new transaction value whose
tuple fields other than `meta` equal the input's (`_replace` does not touch
them), and whose `meta` carries the serialized suggestions under the
reserved key; but the original's meta mapping is shared with the result,
so after the call it too holds the new key (second component of the
model). -/
theorem C2_amended_frame (t : Transaction) (s : List String) :
    ((add_suggested_accounts_to_transaction t s).1.date = t.date ∧
     (add_suggested_accounts_to_transaction t s).1.flag = t.flag ∧
     (add_suggested_accounts_to_transaction t s).1.payee = t.payee ∧
     (add_suggested_accounts_to_transaction t s).1.narration = t.narration ∧
     (add_suggested_accounts_to_transaction t s).1.tags = t.tags ∧
     (add_suggested_accounts_to_transaction t s).1.links = t.links ∧
     (add_suggested_accounts_to_transaction t s).1.postings = t.postings ∧
     (add_suggested_accounts_to_transaction t s).1.meta =
       t.meta.set METADATA_KEY_SUGGESTED_ACCOUNTS (MetaVal.str (dumps s)) ∧
     (add_suggested_accounts_to_transaction t s).2 =
       (add_suggested_accounts_to_transaction t s).1.meta) ∧
    ((add_suggested_payees_to_transaction t s).1.date = t.date ∧
     (add_suggested_payees_to_transaction t s).1.flag = t.flag ∧
     (add_suggested_payees_to_transaction t s).1.payee = t.payee ∧
     (add_suggested_payees_to_transaction t s).1.narration = t.narration ∧
     (add_suggested_payees_to_transaction t s).1.tags = t.tags ∧
     (add_suggested_payees_to_transaction t s).1.links = t.links ∧
     (add_suggested_payees_to_transaction t s).1.postings = t.postings ∧
     (add_suggested_payees_to_transaction t s).1.meta =
       t.meta.set METADATA_KEY_SUGGESTED_PAYEES (MetaVal.str (dumps s)) ∧
     (add_suggested_payees_to_transaction t s).2 =
       (add_suggested_payees_to_transaction t s).1.meta) :=
  ⟨⟨rfl, rfl, rfl, rfl, rfl, rfl, rfl, rfl, rfl⟩,
   ⟨rfl, rfl, rfl, rfl, rfl, rfl, rfl, rfl, rfl⟩⟩

/-- Claim C3: `add_posting_to_transaction` on a transaction with exactly one
posting appends one posting whose account is the given account and whose
other fields are all unset, yielding exactly two postings; on any other
posting count it is the identity. -/
theorem C3_add_posting (t : Transaction) (a : String) :
    (t.postings.length = 1 →
      (add_posting_to_transaction t a).postings.length = 2 ∧
      (add_posting_to_transaction t a).postings[1]? = some (emptyPosting a) ∧
      (emptyPosting a).account = a ∧ (emptyPosting a).units = none ∧
      (emptyPosting a).cost = none ∧ (emptyPosting a).price = none ∧
      (emptyPosting a).flag = none ∧ (emptyPosting a).meta = none ∧
      (add_posting_to_transaction t a).postings =
        t.postings ++ [emptyPosting a]) ∧
    (t.postings.length ≠ 1 → add_posting_to_transaction t a = t) := by
  constructor
  · intro h
    obtain ⟨x, hx⟩ : ∃ x, t.postings = [x] := by
      match hp : t.postings, h with
      | [x], _ => exact ⟨x, rfl⟩
    simp [add_posting_to_transaction, h, hx, emptyPosting]
  · intro h
    simp [add_posting_to_transaction, h]

/-- Witness for C3: a one-posting transaction gains the empty posting, a
two-posting transaction is returned unchanged. -/
theorem C3_witness :
    ((add_posting_to_transaction sampleTxn extraAccount).postings.length = 2 ∧
     (add_posting_to_transaction sampleTxn extraAccount).postings[1]? =
       some (emptyPosting extraAccount) ∧
     (emptyPosting extraAccount).account = extraAccount ∧
     (emptyPosting extraAccount).units = none ∧
     (emptyPosting extraAccount).cost = none ∧
     (emptyPosting extraAccount).price = none ∧
     (emptyPosting extraAccount).flag = none ∧
     (emptyPosting extraAccount).meta = none ∧
     (add_posting_to_transaction sampleTxn extraAccount).postings =
       sampleTxn.postings ++ [emptyPosting extraAccount]) ∧
    add_posting_to_transaction sampleTxnTwo extraAccount = sampleTxnTwo :=
  ⟨(C3_add_posting sampleTxn extraAccount).1 rfl,
   (C3_add_posting sampleTxnTwo extraAccount).2 (by decide)⟩

/-- Claim C4: `add_payee_to_transaction` sets the payee when there is none;
with an existing (non-empty) payee it leaves it unchanged unless
`overwrite=True`, in which case it sets the new payee. -/
theorem C4_add_payee (t : Transaction) (p : String) :
    (∀ ow : Bool, t.payee = none →
      (add_payee_to_transaction t p ow).payee = some p) ∧
    (∀ s, s ≠ "" → t.payee = some s →
      (add_payee_to_transaction t p false).payee = some s ∧
      (add_payee_to_transaction t p true).payee = some p) := by
  constructor
  · intro ow h
    simp [add_payee_to_transaction, pyStrTruthy, h]
  · intro s hs h
    constructor
    · simp [add_payee_to_transaction, pyStrTruthy, h, hs]
    · simp [add_payee_to_transaction, pyStrTruthy, h]

/-- Witness for C4: payee-less transaction gets the payee; a transaction
with payee `"Acme"` keeps it without overwrite and loses it with. -/
theorem C4_witness :
    (add_payee_to_transaction sampleTxn wPayee true).payee = some wPayee ∧
    (add_payee_to_transaction sampleTxnTwo wPayee false).payee = some ("Acme") ∧
    (add_payee_to_transaction sampleTxnTwo wPayee true).payee = some wPayee :=
  ⟨(C4_add_payee sampleTxn wPayee).1 true rfl,
   ((C4_add_payee sampleTxnTwo wPayee).2 ("Acme") (by decide) rfl).1,
   ((C4_add_payee sampleTxnTwo wPayee).2 ("Acme") (by decide) rfl).2⟩

/-- Claim C5: an explicit non-empty entry list is used as the training
source, filtered to transactions and (when a non-empty account is given)
to transactions touching that account; with an empty explicit list and
supplied existing entries, the existing entries are the source under the
same filtering; and every transaction in account-filtered output has a
posting with the filter account. -/
theorem C5_load_training_data (loadFile : String → List Entry)
    (l : List Entry) (existing : Option (List Entry)) :
    (l ≠ [] →
      load_training_data loadFile (.entries l) none existing =
        (filter_txns l).map Entry.txn ∧
      ∀ a, a ≠ "" →
        load_training_data loadFile (.entries l) (some a) existing =
          ((filter_txns l).filter fun t =>
            t.postings.any fun pos => pos.account == a).map Entry.txn) ∧
    (∀ ex, ex ≠ [] →
      load_training_data loadFile (.entries []) none (some ex) =
        (filter_txns ex).map Entry.txn ∧
      ∀ a, a ≠ "" →
        load_training_data loadFile (.entries []) (some a) (some ex) =
          ((filter_txns ex).filter fun t =>
            t.postings.any fun pos => pos.account == a).map Entry.txn) ∧
    (∀ a t, a ≠ "" →
      Entry.txn t ∈ load_training_data loadFile (.entries l) (some a) existing →
      ∃ pos ∈ t.postings, pos.account = a) := by
  refine ⟨?_, ?_, ?_⟩
  · intro hl
    constructor
    · rw [load_entries_nonempty loadFile hl none existing]
      simp [pyStrTruthy]
    · intro a ha
      have hka : pyStrTruthy (some a) = true := by simp [pyStrTruthy, ha]
      rw [load_entries_nonempty loadFile hl (some a) existing, if_pos hka]
      simpa using filter_map_txn (filter_txns l) a
  · intro ex hex
    constructor
    · rw [load_fallback loadFile hex none]
      simp [pyStrTruthy]
    · intro a ha
      have hka : pyStrTruthy (some a) = true := by simp [pyStrTruthy, ha]
      rw [load_fallback loadFile hex (some a), if_pos hka]
      simpa using filter_map_txn (filter_txns ex) a
  · intro a t ha ht
    exact load_mem_account ha ht

/-- Witness for C5 on a concrete three-entry ledger with an account that
only the second transaction touches. -/
theorem C5_witness :
    load_training_data (fun _ => []) (.entries wLedger) none none =
      (filter_txns wLedger).map Entry.txn ∧
    load_training_data (fun _ => []) (.entries wLedger) (some foodAccount) none =
      ((filter_txns wLedger).filter fun t =>
        t.postings.any fun pos => pos.account == foodAccount).map Entry.txn ∧
    load_training_data (fun _ => []) (.entries []) (some foodAccount)
        (some wLedger) =
      ((filter_txns wLedger).filter fun t =>
        t.postings.any fun pos => pos.account == foodAccount).map Entry.txn ∧
    ∃ pos ∈ sampleTxnTwo.postings, pos.account = foodAccount :=
  ⟨((C5_load_training_data (fun _ => []) wLedger none).1 (by decide)).1,
   ((C5_load_training_data (fun _ => []) wLedger none).1 (by decide)).2
     foodAccount (by decide),
   ((C5_load_training_data (fun _ => []) [] none).2.1 wLedger (by decide)).2
     foodAccount (by decide),
   (C5_load_training_data (fun _ => []) wLedger none).2.2 foodAccount
     sampleTxnTwo (by decide) (by decide)⟩

/-- Claim C6: after `add_suggested_accounts_to_transaction`, the returned
transaction's meta entry under `__suggested_accounts__` is exactly
`json.dumps` of the suggestions, and parsing it back as JSON yields the
suggestion list exactly (round-trip, for every list of strings). -/
theorem C6_suggestions_roundtrip (t : Transaction) (s : List String) :
    Meta.get? (add_suggested_accounts_to_transaction t s).1.meta
        METADATA_KEY_SUGGESTED_ACCOUNTS = some (MetaVal.str (dumps s)) ∧
    loads (dumps s) = some s :=
  ⟨Meta.get?_set t.meta METADATA_KEY_SUGGESTED_ACCOUNTS
      (MetaVal.str (dumps s)),
   loads_dumps s⟩

/-- Claim C7 as stated is false: `GetPostingAccount.transform` and
`GetReferencePostingAccount.transform` evaluate `d.postings[-1].account`
and `d.postings[0].account`, which raise `IndexError` on a transaction
with an empty postings list, so on such an input `transform` raises
instead of returning a list of the same length. -/
theorem C7_counterexample :
    GetPostingAccount.transform [Datum.txn txnNoPostings] =
      Except.error PyError.indexError ∧
    GetReferencePostingAccount.transform [Datum.txn txnNoPostings] =
      Except.error PyError.indexError :=
  ⟨rfl, rfl⟩

/-- Claim C7, amended: `GetPayee`, `GetNarration` and `GetDayOfMonth`
transform every input list element-wise, preserving length and order; the
same holds for `GetPostingAccount` and `GetReferencePostingAccount` on
every input list whose transaction elements all have a non-empty postings
list (otherwise their projection raises `IndexError` and `transform`
raises instead of returning a list).  On the spec's concrete shapes: a
payee-less transaction projects to `''`, a transaction with postings
`[A, B]` projects to `B.account` under `GetPostingAccount` and to
`A.account` under `GetReferencePostingAccount`, and a transaction dated
2024-03-15 projects to day 15. -/
theorem C7_transformers :
    (∀ data : List Datum,
      (GetPayee.transform data).length = data.length ∧
      (GetNarration.transform data).length = data.length ∧
      (GetDayOfMonth.transform data).length = data.length ∧
      ∀ i : Nat,
        (GetPayee.transform data)[i]? =
          (data[i]?).map GetPayee._get_payee ∧
        (GetNarration.transform data)[i]? =
          (data[i]?).map GetNarration._get_narration ∧
        (GetDayOfMonth.transform data)[i]? =
          (data[i]?).map GetDayOfMonth._get_day_of_month) ∧
    (∀ data : List Datum, (∀ t, Datum.txn t ∈ data → t.postings ≠ []) →
      ∃ out, GetPostingAccount.transform data = Except.ok out ∧
        out.length = data.length ∧
        ∀ i : Nat, (out[i]?).map Except.ok =
          (data[i]?).map GetPostingAccount._get_posting_account) ∧
    (∀ data : List Datum, (∀ t, Datum.txn t ∈ data → t.postings ≠ []) →
      ∃ out, GetReferencePostingAccount.transform data = Except.ok out ∧
        out.length = data.length ∧
        ∀ i : Nat, (out[i]?).map Except.ok =
          (data[i]?).map GetReferencePostingAccount._get_posting_account) ∧
    (∀ t : Transaction, t.payee = none →
      GetPayee._get_payee (Datum.txn t) = some ("")) ∧
    (∀ (t : Transaction) (A B : Posting), t.postings = [A, B] →
      GetPostingAccount._get_posting_account (Datum.txn t) =
        Except.ok (some B.account) ∧
      GetReferencePostingAccount._get_posting_account (Datum.txn t) =
        Except.ok (some A.account)) ∧
    (∀ t : Transaction, t.date = { year := 2024, month := 3, day := 15 } →
      GetDayOfMonth._get_day_of_month (Datum.txn t) = some 15) := by
  refine ⟨fun data => ⟨?_, ?_, ?_, fun i => ⟨?_, ?_, ?_⟩⟩, ?_, ?_, ?_, ?_, ?_⟩
  · simp [GetPayee.transform]
  · simp [GetNarration.transform]
  · simp [GetDayOfMonth.transform]
  · simp [GetPayee.transform, List.getElem?_map]
  · simp [GetNarration.transform, List.getElem?_map]
  · simp [GetDayOfMonth.transform, List.getElem?_map]
  · intro data h
    exact listComp_ok GetPostingAccount._get_posting_account data
      (getPostingAccount_ok h)
  · intro data h
    exact listComp_ok GetReferencePostingAccount._get_posting_account data
      (getRefPostingAccount_ok h)
  · intro t h
    simp [GetPayee._get_payee, pyOr, h]
  · intro t A B h
    constructor
    · simp [GetPostingAccount._get_posting_account, h]
    · simp [GetReferencePostingAccount._get_posting_account, h]
  · intro t h
    simp [GetDayOfMonth._get_day_of_month, h]

/-- Witness for C7 on concrete transactions: payee-less, two-posting, and
dated 2024-03-15, with the guarded parts applied to a concrete list whose
transactions all have postings. -/
theorem C7_witness :
    GetPayee._get_payee (Datum.txn sampleTxn) = some ("") ∧
    GetPostingAccount._get_posting_account (Datum.txn sampleTxnTwo) =
      Except.ok (some postingFood.account) ∧
    GetReferencePostingAccount._get_posting_account (Datum.txn sampleTxnTwo) =
      Except.ok (some postingCash.account) ∧
    GetDayOfMonth._get_day_of_month (Datum.txn sampleTxnTwo) = some 15 ∧
    (GetPayee.transform [Datum.txn sampleTxn, Datum.txn sampleTxnTwo]).length =
      ([Datum.txn sampleTxn, Datum.txn sampleTxnTwo] : List Datum).length ∧
    (∃ out, GetPostingAccount.transform
        [Datum.txn sampleTxn, Datum.txn sampleTxnTwo] = Except.ok out ∧
      out.length =
        ([Datum.txn sampleTxn, Datum.txn sampleTxnTwo] : List Datum).length ∧
      ∀ i : Nat, (out[i]?).map Except.ok =
        (([Datum.txn sampleTxn, Datum.txn sampleTxnTwo] :
          List Datum)[i]?).map GetPostingAccount._get_posting_account) ∧
    (∃ out, GetReferencePostingAccount.transform
        [Datum.txn sampleTxn, Datum.txn sampleTxnTwo] = Except.ok out ∧
      out.length =
        ([Datum.txn sampleTxn, Datum.txn sampleTxnTwo] : List Datum).length ∧
      ∀ i : Nat, (out[i]?).map Except.ok =
        (([Datum.txn sampleTxn, Datum.txn sampleTxnTwo] :
          List Datum)[i]?).map GetReferencePostingAccount._get_posting_account) :=
  ⟨C7_transformers.2.2.2.1 sampleTxn rfl,
   (C7_transformers.2.2.2.2.1 sampleTxnTwo postingCash postingFood rfl).1,
   (C7_transformers.2.2.2.2.1 sampleTxnTwo postingCash postingFood rfl).2,
   C7_transformers.2.2.2.2.2 sampleTxnTwo rfl,
   (C7_transformers.1 [Datum.txn sampleTxn, Datum.txn sampleTxnTwo]).1,
   C7_transformers.2.1 [Datum.txn sampleTxn, Datum.txn sampleTxnTwo]
     (by
       intro t ht
       simp only [List.mem_cons, List.not_mem_nil, or_false,
         Datum.txn.injEq] at ht
       rcases ht with rfl | rfl
       · decide
       · decide),
   C7_transformers.2.2.1 [Datum.txn sampleTxn, Datum.txn sampleTxnTwo]
     (by
       intro t ht
       simp only [List.mem_cons, List.not_mem_nil, or_false,
         Datum.txn.injEq] at ht
       rcases ht with rfl | rfl
       · decide
       · decide)⟩

/-- Claim C8 as stated is false: an enhanced sequence with more elements
than there are transaction entries violates the claimed "exactly as many"
precondition, yet the merge succeeds (surplus enhanced transactions are
silently ignored; no iteration-exhaustion failure). -/
theorem C8_counterexample :
    txnCount ([] : List Entry) ≠ ([sampleTxn] : List Transaction).length ∧
    merge_non_transaction_entries [] [sampleTxn] = some [] :=
  ⟨by decide, rfl⟩

/-- Claim C8, amended: the merge needs at least as many enhanced elements
as there are transaction-kind entries; it fails with iteration exhaustion
(StopIteration, modelled as `none`) exactly when the enhanced sequence has
fewer elements, and surplus elements are ignored. -/
theorem C8_fails_iff_short (imported : List Entry) (enhanced : List Transaction) :
    merge_non_transaction_entries imported enhanced = none ↔
      enhanced.length < txnCount imported :=
  merge_none_iff imported enhanced

/-- Claim C9: on an element that is neither a `Transaction` nor a
`TxnPostingAccount`, every field extractor falls through its `isinstance`
chain and returns `None` instead of raising (for the two fallible
extractors this is `Except.ok none`: a returned `None`, not a raised
exception). -/
theorem C9_unsupported_none (o : Nat) :
    GetPayee._get_payee (Datum.unsupported o) = none ∧
    GetNarration._get_narration (Datum.unsupported o) = none ∧
    GetPostingAccount._get_posting_account (Datum.unsupported o) =
      Except.ok none ∧
    GetReferencePostingAccount._get_posting_account (Datum.unsupported o) =
      Except.ok none ∧
    GetDayOfMonth._get_day_of_month (Datum.unsupported o) = none :=
  ⟨rfl, rfl, rfl, rfl, rfl⟩

/-- Claim C10: an empty-string payee is falsy (`not transaction.payee`),
so even with `overwrite=False` the payee is replaced, exactly as if it
were absent. -/
theorem C10_empty_payee_overwritten (t : Transaction) (p : String)
    (h : t.payee = some ("")) :
    (add_payee_to_transaction t p false).payee = some p := by
  simp [add_payee_to_transaction, pyStrTruthy, h]

/-- Witness for C10 on a transaction whose payee is the empty string. -/
theorem C10_witness :
    sampleTxnEmptyPayee.payee = some ("") ∧
    (add_payee_to_transaction sampleTxnEmptyPayee wPayee false).payee =
      some wPayee :=
  ⟨rfl, C10_empty_payee_overwritten sampleTxnEmptyPayee wPayee rfl⟩

end SmartImporter
